import Mathlib

/-!
# Notes API — shallow embedding

A shallow embedding of `src/server.js` of the `notes-api` repository: an
in-memory note store (`notes` array plus `noteIdCounter`), a per-client
sliding-window rate limiter (`rateLimitMap`), and the four request handlers
(create, list, update, search).

Modelling conventions:
* Timestamps are `Nat` milliseconds (`Date.now()`); the ISO-8601 strings
  produced by `new Date().toISOString()` are injective monotone images of the
  millisecond clock, so ordering and equality of timestamps are preserved.
  The clock reads inside a single request are modelled as one instant `now`
  passed to the handler.
* Request-body fields are JSON values (`JsonVal`), with `Option` for an
  absent (`undefined`) field, matching `const \x7b title, content \x7d = req.body`.
* `JsMap` models a JS `Map` as an insertion-ordered association list:
  `set` overwrites the first matching key in place, otherwise appends.
* JS `now - timestamp < RATE_LIMIT_WINDOW` is modelled with truncated `Nat`
  subtraction: for `timestamp ≤ now` the two agree, and for a (never
  produced) future timestamp both sides keep it.
* The search and list handlers read the store and never write it, so they
  are modelled as pure functions of the store.
-/

namespace NotesApi

/-- Whitespace predicate used by JS `String.prototype.trim` on the ASCII
range (space, tab, line feed, carriage return, vertical tab, form feed). -/
def isWS (c : Char) : Bool :=
  c = ' ' || c = '\t' || c = '\n' || c = '\r' || c = '\x0b' || c = '\x0c'

/-- Remove trailing whitespace from a character list. -/
def rtrimCore (l : List Char) : List Char :=
  (l.reverse.dropWhile isWS).reverse

/-- Remove leading and trailing whitespace from a character list. -/
def trimCore (l : List Char) : List Char :=
  rtrimCore (l.dropWhile isWS)

/-- JS `str.trim()`. -/
def jsTrim (s : String) : String :=
  ⟨trimCore s.data⟩

/-- JS `str.toLowerCase()` (character-wise lowering). -/
def jsToLower (s : String) : String :=
  ⟨s.data.map Char.toLower⟩

/-- Character-list prefix test (`isPfx needle hay`). -/
def isPfx : List Char → List Char → Bool
  | [], _ => true
  | _ :: _, [] => false
  | a :: as, b :: bs => a == b && isPfx as bs

/-- Character-list substring test: does `hay` contain `needle`? -/
def containsSub (needle : List Char) : List Char → Bool
  | [] => isPfx needle []
  | c :: t => isPfx needle (c :: t) || containsSub needle t

/-- JS `s.includes(sub)`. -/
def strContains (s sub : String) : Bool :=
  containsSub sub.data s.data

/-- A JSON value, as delivered by `express.json()` into `req.body`. -/
inductive JsonVal where
  | jstr (s : String)
  | jnum (n : Int)
  | jbool (b : Bool)
  | jnull
  | jarr (elems : List JsonVal)
  | jobj (fields : List (String × JsonVal))

/-- Is the JSON value a string? (JS `typeof v === 'string'`). -/
def isJStr : JsonVal → Bool
  | .jstr _ => true
  | _ => false

/-- The `cleanString` helper from `server.js`: a non-string (including an absent field,
`undefined`, whose `typeof` is not `'string'`) becomes `''`; a string is
trimmed. -/
def cleanString : Option JsonVal → String
  | some (.jstr s) => jsTrim s
  | _ => ""

/-- A stored note record. -/
structure Note where
  id : Nat
  title : String
  content : String
  created_at : Nat
  updated_at : Nat
deriving DecidableEq

/-- The in-memory store: the `notes` array and the `noteIdCounter`. -/
structure Store where
  notes : List Note
  noteIdCounter : Nat
deriving DecidableEq

/-- The store at process start: `notes = []`, `noteIdCounter = 1`. -/
def initialStore : Store := ⟨[], 1⟩

/-- The rate-limit map: client id → recorded request timestamps, as an
insertion-ordered association list (JS `Map`). -/
abbrev JsMap := List (String × List Nat)

/-- Constant `RATE_LIMIT_WINDOW = 60000` ms. -/
def RATE_LIMIT_WINDOW : Nat := 60000

/-- Constant `MAX_NOTES_PER_MINUTE = 5`. -/
def MAX_NOTES_PER_MINUTE : Nat := 5

/-- JS `map.get(k)` (`none` when absent). -/
def mapFind : JsMap → String → Option (List Nat)
  | [], _ => none
  | (k, v) :: t, key => if k == key then some v else mapFind t key

/-- JS `map.set(k, v)`: overwrite the first matching key, else append. -/
def mapSet : JsMap → String → List Nat → JsMap
  | [], key, v => [(key, v)]
  | (k, w) :: t, key, v => if k == key then (key, v) :: t else (k, w) :: mapSet t key v

/-- The `rateLimiter` middleware from `server.js`: ensure the client has an
entry, prune timestamps outside the window, reject when the pruned count
reaches the threshold (leaving the map as it stood), otherwise record `now`.
Returns (accepted?, map after the check). -/
def rateCheck (m : JsMap) (clientId : String) (now : Nat) : Bool × JsMap :=
  let m1 := match mapFind m clientId with
    | some _ => m
    | none => mapSet m clientId []
  let timestamps := (mapFind m1 clientId).getD []
  let validTimestamps := timestamps.filter fun t => now - t < RATE_LIMIT_WINDOW
  if MAX_NOTES_PER_MINUTE ≤ validTimestamps.length then
    (false, m1)
  else
    (true, mapSet m1 clientId (validTimestamps ++ [now]))

/-- Result of `validateNoteInput` from `server.js`. -/
structure Validation where
  errors : List String
  cleanTitle : String
  cleanContent : String
deriving DecidableEq

/-- The `isValid` field of the validation result (`errors.length === 0`). -/
def Validation.isValid (v : Validation) : Bool :=
  v.errors.isEmpty

/-- The `validateNoteInput` helper from `server.js`. -/
def validateNoteInput (title content : Option JsonVal) : Validation :=
  let cleanTitle := cleanString title
  let cleanContent := cleanString content
  let e1 := if cleanTitle = "" then ["Title is required and cannot be empty or just spaces"] else []
  let e2 := if cleanContent = "" then ["Content is required and cannot be empty or just spaces"] else []
  ⟨e1 ++ e2, cleanTitle, cleanContent⟩

/-- Outcome of `POST /notes`. -/
inductive CreateResult where
  | rateLimited
  | validationFailed (details : List String)
  | created (note : Note)
deriving DecidableEq

/-- The `POST /notes` pipeline: the `rateLimiter` middleware runs first (and
already updates the map when it accepts), then `validateNoteInput`, then the
store mutation. Returns (response, store after, rate-limit map after). -/
def createNote (s : Store) (m : JsMap) (clientId : String) (now : Nat)
    (title content : Option JsonVal) : CreateResult × Store × JsMap :=
  let rc := rateCheck m clientId now
  if rc.1 then
    let v := validateNoteInput title content
    if v.isValid then
      let newNote : Note :=
        ⟨s.noteIdCounter, v.cleanTitle, v.cleanContent, now, now⟩
      (.created newNote, ⟨s.notes ++ [newNote], s.noteIdCounter + 1⟩, rc.2)
    else
      (.validationFailed v.errors, s, rc.2)
  else
    (.rateLimited, s, rc.2)

/-- Lookup `notes.findIndex(note => note.id === noteId)` followed by
`notes[noteIndex]`, i.e. the first note with the given id. -/
def findById (s : Store) (noteId : Nat) : Option Note :=
  s.notes.find? fun n => n.id == noteId

/-- Assignment `notes[noteIndex] = updatedNote`: replace the first note whose id
matches. -/
def replaceFirst : List Note → Nat → Note → List Note
  | [], _, _ => []
  | n :: t, noteId, n' => if n.id == noteId then n' :: t else n :: replaceFirst t noteId n'

/-- Outcome of `PUT /notes/:id`. -/
inductive UpdateResult where
  | notFound
  | validationFailed (details : List String)
  | noChanges (note : Note)
  | updated (note : Note) (updated_fields : List String)
deriving DecidableEq

/-- One `if (field !== undefined) \x7b ... \x7d` block of the update handler:
an absent field stages nothing; a provided field is cleaned, rejected with
`msg` when blank, staged when it differs from the current stored value, and
stages nothing when it is equal to it. -/
def stageField (provided : Option JsonVal) (current : String) (msg : String) :
    Except (List String) (Option String) :=
  match provided with
  | none => .ok none
  | some v =>
    let cleaned := cleanString (some v)
    if cleaned = "" then .error [msg]
    else if cleaned ≠ current then .ok (some cleaned)
    else .ok none

/-- The `PUT /notes/:id` handler: look up the note, validate and stage each
provided field (title first, then content, each rejecting immediately when
blank after trim), and either report no changes or apply the staged fields
with a fresh `updated_at`. Returns (response, store after). -/
def updateNote (s : Store) (noteId : Nat) (now : Nat)
    (title content : Option JsonVal) : UpdateResult × Store :=
  match s.notes.find? (fun n => n.id == noteId) with
  | none => (.notFound, s)
  | some existingNote =>
    match stageField title existingNote.title "Title cannot be empty or just spaces" with
    | .error e => (.validationFailed e, s)
    | .ok stagedTitle =>
      match stageField content existingNote.content "Content cannot be empty or just spaces" with
      | .error e => (.validationFailed e, s)
      | .ok stagedContent =>
        if stagedTitle.isNone && stagedContent.isNone then
          (.noChanges existingNote, s)
        else
          let updatedNote : Note :=
            { existingNote with
              title := stagedTitle.getD existingNote.title
              content := stagedContent.getD existingNote.content
              updated_at := now }
          let fields :=
            (if stagedTitle.isSome then ["title"] else []) ++
            (if stagedContent.isSome then ["content"] else [])
          (.updated updatedNote fields, { s with notes := replaceFirst s.notes noteId updatedNote })

/-- Comparator of the `GET /notes` and search sorts: most recently updated
first (`new Date(b.updated_at) - new Date(a.updated_at)`). -/
def updatedDescRel (a b : Note) : Prop :=
  b.updated_at ≤ a.updated_at

instance : DecidableRel updatedDescRel :=
  fun a b => Nat.decLe b.updated_at a.updated_at

instance : IsTotal Note updatedDescRel :=
  ⟨fun a b => (Nat.le_total a.updated_at b.updated_at).symm⟩

instance : IsTrans Note updatedDescRel :=
  ⟨fun _ _ _ h1 h2 => Nat.le_trans h2 h1⟩

/-- Stable sort by `updated_at` descending (modern `Array.prototype.sort`
is stable; any stable sort computes the same list). -/
def sortByUpdatedDesc (l : List Note) : List Note :=
  l.insertionSort updatedDescRel

/-- The `GET /notes` handler: all notes, most recently updated first. -/
def listNotes (s : Store) : List Note :=
  sortByUpdatedDesc s.notes

/-- Outcome of `GET /notes/search`. -/
inductive SearchResult where
  | missingQuery
  | invalidQuery
  | results (query : String) (notes : List Note)
deriving DecidableEq

/-- Does a note match the (already trimmed, lower-cased) query? -/
def noteMatches (cleanQuery : String) (n : Note) : Bool :=
  strContains (jsToLower n.title) cleanQuery || strContains (jsToLower n.content) cleanQuery

/-- The `GET /notes/search` handler. `q = none` models an absent `q`
parameter; JS `if (!query)` also fires on the empty string, so `some ""`
takes the `missingQuery` branch. -/
def searchNotes (s : Store) (q : Option String) : SearchResult :=
  match q with
  | none => .missingQuery
  | some query =>
    if query = "" then .missingQuery
    else
      let cleanQuery := jsToLower (jsTrim query)
      if cleanQuery = "" then .invalidQuery
      else
        let results := s.notes.filter (noteMatches cleanQuery)
        .results cleanQuery (sortByUpdatedDesc results)

/-- Store states reachable from process start through the two mutating
handlers (create and update), with arbitrary request inputs. -/
inductive Reachable : Store → Prop where
  | init : Reachable initialStore
  | create (s : Store) (m : JsMap) (clientId : String) (now : Nat)
      (title content : Option JsonVal) :
      Reachable s → Reachable (createNote s m clientId now title content).2.1
  | update (s : Store) (noteId now : Nat) (title content : Option JsonVal) :
      Reachable s → Reachable (updateNote s noteId now title content).2

/-- A stored text field: trimmed (no leading or trailing whitespace) and
non-empty. -/
def cleanField (x : String) : Prop :=
  jsTrim x = x ∧ x ≠ ""

/-- Running the rate-limit check for one client at a sequence of instants,
threading the map; returns the accept/reject verdicts in order. -/
def runChecks (m : JsMap) (clientId : String) : List Nat → List Bool × JsMap
  | [] => ([], m)
  | t :: ts =>
    let r := rateCheck m clientId t
    let rest := runChecks r.2 clientId ts
    (r.1 :: rest.1, rest.2)

/-- Is the field provided and, after cleaning, different from the stored
value? This is the staging condition
`field !== undefined && cleanField !== existingNote.field` of the update
handler. -/
def providedChanged (field : Option JsonVal) (current : String) : Bool :=
  match field with
  | none => false
  | some v => cleanString (some v) != current

/-- Is the field either absent or non-blank after cleaning? (The update
handler rejects a provided field that cleans to the empty string.) -/
def providedValid (field : Option JsonVal) : Bool :=
  match field with
  | none => true
  | some v => cleanString (some v) != ""

/-! ## Helper lemmas on trimming -/

lemma dropWhile_dropWhile (p : Char → Bool) (l : List Char) :
    (l.dropWhile p).dropWhile p = l.dropWhile p := by
  induction l with
  | nil => rfl
  | cons c t ih =>
    by_cases h : p c = true
    · simpa [List.dropWhile, h] using ih
    · simp [List.dropWhile, h]

lemma dropWhile_exists_prefix (p : Char → Bool) (l : List Char) :
    ∃ t, t ++ l.dropWhile p = l := by
  induction l with
  | nil => exact ⟨[], rfl⟩
  | cons c t ih =>
    by_cases h : p c = true
    · obtain ⟨u, hu⟩ := ih
      exact ⟨c :: u, by simp [List.dropWhile, h, hu]⟩
    · exact ⟨[], by simp [List.dropWhile, h]⟩

lemma rtrimCore_exists_suffix (y : List Char) :
    ∃ u, y = rtrimCore y ++ u := by
  obtain ⟨t, ht⟩ := dropWhile_exists_prefix isWS y.reverse
  refine ⟨t.reverse, ?_⟩
  have := congrArg List.reverse ht
  simpa [rtrimCore] using this.symm

lemma dropWhile_rtrimCore (y : List Char) (h : y.dropWhile isWS = y) :
    (rtrimCore y).dropWhile isWS = rtrimCore y := by
  obtain ⟨u, hu⟩ := rtrimCore_exists_suffix y
  cases hR : rtrimCore y with
  | nil => simp [List.dropWhile]
  | cons c r =>
    have hy : y = c :: (r ++ u) := by rw [hu, hR]; simp
    have hc : isWS c = false := by
      by_contra hc
      have hc' : isWS c = true := by
        cases hcc : isWS c
        · exact absurd hcc hc
        · rfl
      have h2 : (r ++ u).dropWhile isWS = c :: (r ++ u) := by
        have := h
        rw [hy] at this
        simpa [List.dropWhile, hc'] using this
      have hlen : ((r ++ u).dropWhile isWS).length ≤ (r ++ u).length :=
        (List.dropWhile_sublist isWS).length_le
      rw [h2] at hlen
      simp at hlen
    simp [List.dropWhile, hc]

lemma rtrimCore_rtrimCore (y : List Char) :
    rtrimCore (rtrimCore y) = rtrimCore y := by
  unfold rtrimCore
  rw [List.reverse_reverse, dropWhile_dropWhile]

lemma trimCore_trimCore (l : List Char) :
    trimCore (trimCore l) = trimCore l := by
  unfold trimCore
  rw [dropWhile_rtrimCore (l.dropWhile isWS) (dropWhile_dropWhile isWS l),
    rtrimCore_rtrimCore]

lemma data_jsTrim (s : String) : (jsTrim s).data = trimCore s.data := rfl

lemma jsTrim_jsTrim (s : String) : jsTrim (jsTrim s) = jsTrim s := by
  unfold jsTrim
  exact congrArg String.mk (trimCore_trimCore s.data)

lemma string_mk_nil : (⟨[]⟩ : String) = "" := rfl

lemma trimCore_eq_nil_of_all (l : List Char) (h : ∀ c ∈ l, isWS c = true) :
    trimCore l = [] := by
  have h1 : l.dropWhile isWS = [] := List.dropWhile_eq_nil_iff.mpr h
  unfold trimCore rtrimCore
  rw [h1]
  rfl

lemma cleanField_jsTrim (x : String) (h : cleanField x) :
    ¬ ∀ c ∈ x.data, isWS c = true := by
  intro hall
  have h0 : trimCore x.data = [] := trimCore_eq_nil_of_all x.data hall
  have h1 : jsTrim x = "" := by
    unfold jsTrim
    rw [h0]
  exact h.2 (h.1 ▸ h1)

lemma cleanString_cleanField (o : Option JsonVal) (h : cleanString o ≠ "") :
    cleanField (cleanString o) := by
  match o with
  | none => exact absurd rfl h
  | some (.jstr s) => exact ⟨jsTrim_jsTrim s, h⟩
  | some (.jnum _) => exact absurd rfl h
  | some (.jbool _) => exact absurd rfl h
  | some .jnull => exact absurd rfl h
  | some (.jarr _) => exact absurd rfl h
  | some (.jobj _) => exact absurd rfl h

lemma cleanString_of_not_jstr (v : JsonVal) (h : isJStr v = false) :
    cleanString (some v) = "" := by
  cases v <;> first | rfl | exact absurd h (by simp [isJStr])

/-! ## Helper lemmas on the rate-limit map -/

lemma mapFind_mapSet_self (m : JsMap) (k : String) (v : List Nat) :
    mapFind (mapSet m k v) k = some v := by
  induction m with
  | nil => simp [mapFind, mapSet]
  | cons p t ih =>
    obtain ⟨k', w⟩ := p
    by_cases h : (k' == k) = true
    · simp [mapFind, mapSet, h]
    · have h' : (k' == k) = false := by
        cases hk : (k' == k)
        · rfl
        · exact absurd hk h
      simp [mapFind, mapSet, h', ih]

lemma rateCheck_reject (m : JsMap) (c : String) (now : Nat)
    (h : (rateCheck m c now).1 = false) : (rateCheck m c now).2 = m := by
  cases hf : mapFind m c with
  | none =>
    simp only [rateCheck, hf, mapFind_mapSet_self, Option.getD_some,
      List.filter_nil, List.length_nil] at h
    simp [MAX_NOTES_PER_MINUTE] at h
  | some ts =>
    simp only [rateCheck, hf, Option.getD_some] at h ⊢
    split
    · rfl
    next hcond =>
      rw [if_neg hcond] at h
      simp at h

lemma rateCheck_reject_iff (m : JsMap) (c : String) (now : Nat) :
    (rateCheck m c now).1 = false ↔
      MAX_NOTES_PER_MINUTE ≤
        (((mapFind m c).getD []).filter fun t => now - t < RATE_LIMIT_WINDOW).length := by
  cases hf : mapFind m c with
  | none =>
    simp only [rateCheck, hf, mapFind_mapSet_self, Option.getD_some,
      Option.getD_none, List.filter_nil, List.length_nil]
    simp [MAX_NOTES_PER_MINUTE]
  | some ts =>
    simp only [rateCheck, hf, Option.getD_some]
    split
    next hcond => simpa using hcond
    next hcond => simpa using hcond

lemma rateCheck_accept_map (m : JsMap) (c : String) (now : Nat)
    (h : (((mapFind m c).getD []).filter fun t => now - t < RATE_LIMIT_WINDOW).length <
      MAX_NOTES_PER_MINUTE) :
    mapFind (rateCheck m c now).2 c =
      some ((((mapFind m c).getD []).filter fun t => now - t < RATE_LIMIT_WINDOW) ++ [now]) := by
  cases hf : mapFind m c with
  | none =>
    simp only [rateCheck, hf, mapFind_mapSet_self, Option.getD_some,
      Option.getD_none, List.filter_nil, List.length_nil]
    rw [if_neg (by simp [MAX_NOTES_PER_MINUTE])]
    simp [mapFind_mapSet_self]
  | some ts =>
    simp only [rateCheck, hf, Option.getD_some] at h ⊢
    rw [if_neg (Nat.not_le_of_lt h)]
    simp [mapFind_mapSet_self]

/-! ## Helper lemmas on validation and the handlers -/

lemma validateNoteInput_isValid (t c : Option JsonVal) :
    (validateNoteInput t c).isValid = true ↔
      cleanString t ≠ "" ∧ cleanString c ≠ "" := by
  by_cases h1 : cleanString t = "" <;> by_cases h2 : cleanString c = "" <;>
    simp [validateNoteInput, Validation.isValid, h1, h2]

lemma createNote_cases (s : Store) (m : JsMap) (c : String) (now : Nat)
    (t cc : Option JsonVal) :
    ((createNote s m c now t cc).2.1 = s ∧
      ((createNote s m c now t cc).1 = .rateLimited ∨
        (createNote s m c now t cc).1 = .validationFailed (validateNoteInput t cc).errors)) ∨
    (cleanString t ≠ "" ∧ cleanString cc ≠ "" ∧
      createNote s m c now t cc =
        (.created ⟨s.noteIdCounter, cleanString t, cleanString cc, now, now⟩,
          ⟨s.notes ++ [⟨s.noteIdCounter, cleanString t, cleanString cc, now, now⟩],
            s.noteIdCounter + 1⟩,
          (rateCheck m c now).2)) := by
  simp only [createNote]
  by_cases hb : (rateCheck m c now).1 = true
  · rw [if_pos hb]
    by_cases hv : (validateNoteInput t cc).isValid = true
    · rw [if_pos hv]
      obtain ⟨h1, h2⟩ := (validateNoteInput_isValid t cc).mp hv
      exact Or.inr ⟨h1, h2, rfl⟩
    · rw [if_neg hv]
      exact Or.inl ⟨rfl, Or.inr rfl⟩
  · rw [if_neg hb]
    exact Or.inl ⟨rfl, Or.inl rfl⟩

lemma stageField_ok_some (p : Option JsonVal) (cur msg : String) (x : String)
    (h : stageField p cur msg = .ok (some x)) :
    x = cleanString p ∧ cleanField x ∧ x ≠ cur := by
  match p with
  | none => simp [stageField] at h
  | some v =>
    simp only [stageField] at h
    by_cases h1 : cleanString (some v) = ""
    · rw [if_pos h1] at h
      cases h
    · rw [if_neg h1] at h
      by_cases h2 : cleanString (some v) ≠ cur
      · rw [if_pos h2] at h
        obtain rfl : cleanString (some v) = x := by
          simpa using h
        exact ⟨rfl, cleanString_cleanField _ h1, h2⟩
      · rw [if_neg h2] at h
        simp at h

lemma stageField_unchanged (v : JsonVal) (cur msg : String) (hcur : cur ≠ "")
    (heq : cleanString (some v) = cur) :
    stageField (some v) cur msg = .ok none := by
  simp only [stageField]
  rw [if_neg (by rw [heq]; exact hcur), if_neg (fun hne => hne heq)]

lemma stageField_changed (v : JsonVal) (cur msg : String)
    (h1 : cleanString (some v) ≠ "") (h2 : cleanString (some v) ≠ cur) :
    stageField (some v) cur msg = .ok (some (cleanString (some v))) := by
  simp only [stageField]
  rw [if_neg h1, if_pos h2]

lemma stageField_blank (v : JsonVal) (cur msg : String)
    (h : cleanString (some v) = "") :
    stageField (some v) cur msg = .error [msg] := by
  simp only [stageField]
  rw [if_pos h]

lemma stageField_error (p : Option JsonVal) (cur msg : String) (e : List String)
    (h : stageField p cur msg = .error e) : e = [msg] := by
  match p with
  | none => simp [stageField] at h
  | some v =>
    simp only [stageField] at h
    by_cases h1 : cleanString (some v) = ""
    · rw [if_pos h1] at h
      simpa using h.symm
    · rw [if_neg h1] at h
      by_cases h2 : cleanString (some v) ≠ cur
      · rw [if_pos h2] at h
        cases h
      · rw [if_neg h2] at h
        cases h

lemma stageField_of_valid (p : Option JsonVal) (cur msg : String)
    (hv : providedValid p = true) :
    stageField p cur msg =
      .ok (if providedChanged p cur then some (cleanString p) else none) := by
  cases p with
  | none => rfl
  | some v =>
    have h1 : cleanString (some v) ≠ "" := by
      simpa [providedValid] using hv
    by_cases h2 : cleanString (some v) = cur
    · rw [stageField_unchanged v cur msg (h2 ▸ h1) h2]
      simp [providedChanged, h2]
    · rw [stageField_changed v cur msg h1 h2]
      simp [providedChanged, h2]

lemma jsToLower_eq_empty (s : String) (h : jsToLower s = "") : s = "" := by
  cases s with
  | mk data =>
    cases data with
    | nil => rfl
    | cons c t =>
      exfalso
      have hd : (jsToLower ⟨c :: t⟩).data = ("" : String).data :=
        congrArg String.data h
      simp [jsToLower] at hd

lemma updateNote_notFound_eq (s : Store) (i now : Nat) (t cc : Option JsonVal)
    (hf : s.notes.find? (fun n => n.id == i) = none) :
    updateNote s i now t cc = (.notFound, s) := by
  unfold updateNote
  rw [hf]

lemma updateNote_found_eq (s : Store) (i now : Nat) (t cc : Option JsonVal)
    (existing : Note)
    (hf : s.notes.find? (fun n => n.id == i) = some existing) :
    updateNote s i now t cc =
      match stageField t existing.title "Title cannot be empty or just spaces" with
      | .error e => (.validationFailed e, s)
      | .ok stagedTitle =>
        match stageField cc existing.content "Content cannot be empty or just spaces" with
        | .error e => (.validationFailed e, s)
        | .ok stagedContent =>
          if stagedTitle.isNone && stagedContent.isNone then
            (.noChanges existing, s)
          else
            let updatedNote : Note :=
              { existing with
                title := stagedTitle.getD existing.title
                content := stagedContent.getD existing.content
                updated_at := now }
            (.updated updatedNote
              ((if stagedTitle.isSome then ["title"] else []) ++
                (if stagedContent.isSome then ["content"] else [])),
              { s with notes := replaceFirst s.notes i updatedNote }) := by
  unfold updateNote
  rw [hf]

lemma updateNote_titleError_eq (s : Store) (i now : Nat) (t cc : Option JsonVal)
    (existing : Note) (e : List String)
    (hf : s.notes.find? (fun n => n.id == i) = some existing)
    (ht : stageField t existing.title "Title cannot be empty or just spaces" = .error e) :
    updateNote s i now t cc = (.validationFailed e, s) := by
  rw [updateNote_found_eq s i now t cc existing hf, ht]

lemma updateNote_contentError_eq (s : Store) (i now : Nat) (t cc : Option JsonVal)
    (existing : Note) (stagedT : Option String) (e : List String)
    (hf : s.notes.find? (fun n => n.id == i) = some existing)
    (ht : stageField t existing.title "Title cannot be empty or just spaces" = .ok stagedT)
    (hc : stageField cc existing.content "Content cannot be empty or just spaces" = .error e) :
    updateNote s i now t cc = (.validationFailed e, s) := by
  rw [updateNote_found_eq s i now t cc existing hf, ht, hc]

lemma updateNote_staged_eq (s : Store) (i now : Nat) (t cc : Option JsonVal)
    (existing : Note) (stagedT stagedC : Option String) (n' : Note)
    (hf : s.notes.find? (fun n => n.id == i) = some existing)
    (ht : stageField t existing.title "Title cannot be empty or just spaces" = .ok stagedT)
    (hc : stageField cc existing.content "Content cannot be empty or just spaces" = .ok stagedC)
    (hn' : n' = { existing with title := stagedT.getD existing.title, content := stagedC.getD existing.content, updated_at := now }) :
    updateNote s i now t cc =
      if stagedT.isNone && stagedC.isNone then
        (.noChanges existing, s)
      else
        (.updated n'
          ((if stagedT.isSome then ["title"] else []) ++
            (if stagedC.isSome then ["content"] else [])),
          { s with notes := replaceFirst s.notes i n' }) := by
  subst hn'
  rw [updateNote_found_eq s i now t cc existing hf, ht, hc]

lemma updateNote_cases (s : Store) (i now : Nat) (t cc : Option JsonVal) :
    (updateNote s i now t cc).2 = s ∨
    ∃ existing n' fields,
      s.notes.find? (fun n => n.id == i) = some existing ∧
      n'.id = existing.id ∧
      (cleanField n'.title ∨ n'.title = existing.title) ∧
      (cleanField n'.content ∨ n'.content = existing.content) ∧
      n'.created_at = existing.created_at ∧
      updateNote s i now t cc =
        (.updated n' fields, { s with notes := replaceFirst s.notes i n' }) := by
  cases hf : s.notes.find? (fun n => n.id == i) with
  | none => rw [updateNote_notFound_eq s i now t cc hf]; exact Or.inl rfl
  | some existing =>
    cases ht : stageField t existing.title "Title cannot be empty or just spaces" with
    | error e => rw [updateNote_titleError_eq s i now t cc existing e hf ht]; exact Or.inl rfl
    | ok stagedT =>
      cases hc : stageField cc existing.content "Content cannot be empty or just spaces" with
      | error e =>
        rw [updateNote_contentError_eq s i now t cc existing stagedT e hf ht hc]
        exact Or.inl rfl
      | ok stagedC =>
        rw [updateNote_staged_eq s i now t cc existing stagedT stagedC _ hf ht hc rfl]
        by_cases hn : (stagedT.isNone && stagedC.isNone) = true
        · exact Or.inl (by rw [if_pos hn])
        · right
          refine ⟨existing,
            { existing with
              title := stagedT.getD existing.title
              content := stagedC.getD existing.content
              updated_at := now },
            (if stagedT.isSome then ["title"] else []) ++
              (if stagedC.isSome then ["content"] else []),
            rfl, rfl, ?_, ?_, rfl, by rw [if_neg hn]⟩
          · cases stagedT with
            | none => exact Or.inr rfl
            | some x =>
              exact Or.inl (stageField_ok_some t existing.title _ x ht).2.1
          · cases stagedC with
            | none => exact Or.inr rfl
            | some x =>
              exact Or.inl (stageField_ok_some cc existing.content _ x hc).2.1

/-! ## Helper lemmas on list surgery -/

lemma mem_replaceFirst (l : List Note) (i : Nat) (n' x : Note)
    (h : x ∈ replaceFirst l i n') : x = n' ∨ x ∈ l := by
  induction l with
  | nil => simp [replaceFirst] at h
  | cons n t ih =>
    simp only [replaceFirst] at h
    by_cases hb : (n.id == i) = true
    · rw [if_pos hb] at h
      rcases List.mem_cons.mp h with h1 | h1
      · exact Or.inl h1
      · exact Or.inr (List.mem_cons_of_mem _ h1)
    · rw [if_neg hb] at h
      rcases List.mem_cons.mp h with h1 | h1
      · exact Or.inr (h1 ▸ List.mem_cons_self _ _)
      · rcases ih h1 with h2 | h2
        · exact Or.inl h2
        · exact Or.inr (List.mem_cons_of_mem _ h2)

lemma map_id_replaceFirst (l : List Note) (i : Nat) (n' : Note) (h : n'.id = i) :
    (replaceFirst l i n').map Note.id = l.map Note.id := by
  induction l with
  | nil => rfl
  | cons n t ih =>
    simp only [replaceFirst]
    by_cases hb : (n.id == i) = true
    · rw [if_pos hb]
      have hn : n.id = i := by simpa using hb
      simp [h, hn]
    · rw [if_neg hb]
      simp [ih]

lemma find?_append_right (l₁ l₂ : List Note) (p : Note → Bool)
    (h : l₁.find? p = none) : (l₁ ++ l₂).find? p = l₂.find? p := by
  rw [List.find?_append, h, Option.none_or]

/-! ## Store invariants and reachability -/

/-- Invariant for claim C4: every stored text field is trimmed and
non-empty. -/
def StoreInv (s : Store) : Prop :=
  ∀ n ∈ s.notes, cleanField n.title ∧ cleanField n.content

/-- Invariant for claim C5: the stored ids are exactly `1, 2, …,
noteIdCounter - 1` in creation order. -/
def IdSeq (s : Store) : Prop :=
  s.notes.map Note.id = List.range' 1 (s.noteIdCounter - 1) ∧ 1 ≤ s.noteIdCounter

lemma reachable_inv (s : Store) (h : Reachable s) : StoreInv s ∧ IdSeq s := by
  induction h with
  | init =>
    constructor
    · intro n hn
      simp [initialStore] at hn
    · exact ⟨rfl, Nat.le_refl 1⟩
  | create s m c now t cc hs ih =>
    rcases createNote_cases s m c now t cc with ⟨heq, _⟩ | ⟨h1, h2, heq⟩
    · rw [heq]; exact ih
    · have heq1 : (createNote s m c now t cc).2.1 =
          ⟨s.notes ++ [⟨s.noteIdCounter, cleanString t, cleanString cc, now, now⟩],
            s.noteIdCounter + 1⟩ := by rw [heq]
      rw [heq1]
      refine ⟨?_, ?_, ?_⟩
      · intro n hn
        rcases List.mem_append.mp hn with h3 | h3
        · exact ih.1 n h3
        · rw [List.mem_singleton.mp h3]
          exact ⟨cleanString_cleanField t h1, cleanString_cleanField cc h2⟩
      · show (s.notes ++ [_]).map Note.id = List.range' 1 (s.noteIdCounter + 1 - 1)
        rw [List.map_append, ih.2.1]
        have hc1 : 1 ≤ s.noteIdCounter := ih.2.2
        rw [show s.noteIdCounter + 1 - 1 = (s.noteIdCounter - 1) + 1 by omega]
        rw [List.range'_concat]
        simp only [List.map_cons, List.map_nil, Nat.mul_one]
        congr 2
        omega
      · exact Nat.le_succ_of_le ih.2.2
  | update s i now t cc hs ih =>
    rcases updateNote_cases s i now t cc with heq | ⟨ex, n', fields, hf, hid, hT, hC, hca, heq⟩
    · rw [heq]; exact ih
    · have hmem : ex ∈ s.notes := List.mem_of_find?_eq_some hf
      have hexid : (ex.id == i) = true := by
        simpa using List.find?_some hf
      have hexid' : ex.id = i := by simpa using hexid
      have hidi : n'.id = i := hid.trans hexid'
      have heq2 : (updateNote s i now t cc).2 =
          { s with notes := replaceFirst s.notes i n' } := by rw [heq]
      rw [heq2]
      refine ⟨?_, ?_, ?_⟩
      · intro n hn
        rcases mem_replaceFirst s.notes i n' n hn with rfl | h3
        · constructor
          · rcases hT with h4 | h4
            · exact h4
            · rw [h4]; exact (ih.1 ex hmem).1
          · rcases hC with h4 | h4
            · exact h4
            · rw [h4]; exact (ih.1 ex hmem).2
        · exact ih.1 n h3
      · show (replaceFirst s.notes i n').map Note.id = _
        rw [map_id_replaceFirst s.notes i n' hidi]
        exact ih.2.1
      · exact ih.2.2

/-! ## Claims -/

/-- C9: for every id with no matching note in the store, update returns
NotFound regardless of the request payload — even when a provided title or
content is blank or otherwise invalid, the NotFound response is produced,
no validation error is reported, and the store is unchanged. -/
theorem C9_update_missing_id_notFound (s : Store) (i now : Nat)
    (title content : Option JsonVal)
    (hf : findById s i = none) :
    updateNote s i now title content = (.notFound, s) :=
  updateNote_notFound_eq s i now title content hf

/-- Witness for C9: updating id 99999 in the empty store with an invalid
payload (blank title, null content) yields NotFound, not a validation
error. -/
theorem C9_witness :
    findById initialStore 99999 = none ∧
    updateNote initialStore 99999 5 (some (.jstr "")) (some .jnull) =
      (.notFound, initialStore) :=
  ⟨rfl, C9_update_missing_id_notFound initialStore 99999 5
    (some (.jstr "")) (some .jnull) rfl⟩

/-- C6: for every existing note, an update whose every provided field equals
(after trimming) the note's current value returns the "no changes" response
with the existing note and leaves the store entirely untouched — in
particular `updated_at` is not bumped. (The stored fields are non-empty in
every reachable state, which is hypothesised here.) -/
theorem C6_noop_update_unchanged (s : Store) (i now : Nat)
    (title content : Option JsonVal) (existing : Note)
    (hf : findById s i = some existing)
    (hT : existing.title ≠ "") (hC : existing.content ≠ "")
    (htEq : ∀ v, title = some v → cleanString (some v) = existing.title)
    (hcEq : ∀ v, content = some v → cleanString (some v) = existing.content) :
    updateNote s i now title content = (.noChanges existing, s) := by
  have ht : stageField title existing.title "Title cannot be empty or just spaces" = .ok none := by
    cases title with
    | none => rfl
    | some v => exact stageField_unchanged v existing.title _ hT (htEq v rfl)
  have hc : stageField content existing.content "Content cannot be empty or just spaces" = .ok none := by
    cases content with
    | none => rfl
    | some v => exact stageField_unchanged v existing.content _ hC (hcEq v rfl)
  rw [updateNote_staged_eq s i now title content existing none none _ hf ht hc rfl]
  rfl

/-- Witness for C6: providing `" a "` (trimming to the current title) and
omitting content returns "no changes" and leaves the store, including
`updated_at`, untouched. -/
theorem C6_witness :
    findById ⟨[⟨1, "a", "b", 3, 4⟩], 2⟩ 1 = some ⟨1, "a", "b", 3, 4⟩ ∧
    updateNote ⟨[⟨1, "a", "b", 3, 4⟩], 2⟩ 1 99 (some (.jstr " a ")) none =
      (.noChanges ⟨1, "a", "b", 3, 4⟩, ⟨[⟨1, "a", "b", 3, 4⟩], 2⟩) :=
  ⟨rfl, C6_noop_update_unchanged ⟨[⟨1, "a", "b", 3, 4⟩], 2⟩ 1 99
    (some (.jstr " a ")) none ⟨1, "a", "b", 3, 4⟩ rfl
    (by decide) (by decide)
    (fun v hv => by cases hv; decide)
    (fun v hv => by cases hv)⟩

/-- C3: for every title and content that are non-empty after trimming, a
successful create (not rate-limited) stores and returns a note whose title
and content equal the trimmed inputs and whose `created_at` equals its
`updated_at`, and an immediately following lookup by the returned id finds
exactly that note. (The id-freshness hypothesis holds in every reachable
state by C5.) -/
theorem C3_create_then_find (s : Store) (m : JsMap) (c : String) (now : Nat)
    (rawT rawC : String)
    (hT : jsTrim rawT ≠ "") (hC : jsTrim rawC ≠ "")
    (hrl : (rateCheck m c now).1 = true)
    (hid : ∀ n ∈ s.notes, n.id ≠ s.noteIdCounter) :
    ∃ note s' m',
      createNote s m c now (some (.jstr rawT)) (some (.jstr rawC)) =
        (.created note, s', m') ∧
      note.title = jsTrim rawT ∧ note.content = jsTrim rawC ∧
      note.created_at = now ∧ note.updated_at = now ∧
      note.created_at = note.updated_at ∧
      s'.notes = s.notes ++ [note] ∧
      findById s' note.id = some note := by
  have hv : (validateNoteInput (some (.jstr rawT)) (some (.jstr rawC))).isValid = true :=
    (validateNoteInput_isValid _ _).mpr ⟨hT, hC⟩
  have heq : createNote s m c now (some (.jstr rawT)) (some (.jstr rawC)) =
      (.created ⟨s.noteIdCounter, jsTrim rawT, jsTrim rawC, now, now⟩,
        ⟨s.notes ++ [⟨s.noteIdCounter, jsTrim rawT, jsTrim rawC, now, now⟩],
          s.noteIdCounter + 1⟩,
        (rateCheck m c now).2) := by
    simp only [createNote]
    rw [if_pos hrl, if_pos hv]
    rfl
  refine ⟨⟨s.noteIdCounter, jsTrim rawT, jsTrim rawC, now, now⟩, _, _, heq,
    rfl, rfl, rfl, rfl, rfl, rfl, ?_⟩
  show (s.notes ++ [(⟨s.noteIdCounter, jsTrim rawT, jsTrim rawC, now, now⟩ : Note)]).find?
      (fun n => n.id == s.noteIdCounter) = some ⟨s.noteIdCounter, jsTrim rawT, jsTrim rawC, now, now⟩
  rw [find?_append_right]
  · simp [List.find?]
  · apply List.find?_eq_none.mpr
    intro n hn
    simpa using hid n hn

/-- Witness for C3: creating `" a "` / `" b "` at time 7 in the empty store
stores the trimmed note with equal timestamps and finds it by id 1. -/
theorem C3_witness :
    jsTrim " a " ≠ "" ∧ jsTrim " b " ≠ "" ∧ (rateCheck [] "dan" 7).1 = true ∧
    (∃ note s' m',
      createNote initialStore [] "dan" 7 (some (.jstr " a ")) (some (.jstr " b ")) =
        (.created note, s', m') ∧
      note.title = jsTrim " a " ∧ note.content = jsTrim " b " ∧
      note.created_at = 7 ∧ note.updated_at = 7 ∧
      note.created_at = note.updated_at ∧
      s'.notes = initialStore.notes ++ [note] ∧
      findById s' note.id = some note) :=
  ⟨by decide, by decide, by decide,
    C3_create_then_find initialStore [] "dan" 7 " a " " b "
      (by decide) (by decide) (by decide) (fun n hn => nomatch hn)⟩

/-- C2: the rate-limit check first prunes the client's record to the
timestamps inside the 60-second window, rejects (leaving the map as it was)
when at least 5 remain, and otherwise records `now` and accepts; with
threshold 5 and window 60 s, of 6 create checks from one client within one
window the first 5 are accepted and the 6th rejected, and a 7th check after
the window has elapsed since the earlier accepts is accepted again. -/
theorem C2_rate_limiter_algorithm :
    (RATE_LIMIT_WINDOW = 60000 ∧ MAX_NOTES_PER_MINUTE = 5) ∧
    (∀ (m : JsMap) (c : String) (now : Nat),
      (MAX_NOTES_PER_MINUTE ≤
          (((mapFind m c).getD []).filter fun t => now - t < RATE_LIMIT_WINDOW).length →
        rateCheck m c now = (false, m)) ∧
      ((((mapFind m c).getD []).filter fun t => now - t < RATE_LIMIT_WINDOW).length <
          MAX_NOTES_PER_MINUTE →
        (rateCheck m c now).1 = true ∧
        mapFind (rateCheck m c now).2 c =
          some ((((mapFind m c).getD []).filter fun t => now - t < RATE_LIMIT_WINDOW) ++ [now]))) ∧
    (runChecks [] "alice" [0, 10, 20, 30, 40, 50, 60050]).1 =
      [true, true, true, true, true, false, true] := by
  refine ⟨⟨rfl, rfl⟩, ?_, by decide⟩
  intro m c now
  constructor
  · intro h
    have h1 : (rateCheck m c now).1 = false := (rateCheck_reject_iff m c now).mpr h
    have h2 : (rateCheck m c now).2 = m := rateCheck_reject m c now h1
    calc rateCheck m c now = ((rateCheck m c now).1, (rateCheck m c now).2) := rfl
      _ = (false, m) := by rw [h1, h2]
  · intro h
    have h1 : (rateCheck m c now).1 = true := by
      cases hb : (rateCheck m c now).1
      · exact absurd ((rateCheck_reject_iff m c now).mp hb) (Nat.not_le_of_lt h)
      · rfl
    exact ⟨h1, rateCheck_accept_map m c now h⟩

/-- Witness for C2: a first check for a fresh client accepts and records the
timestamp. -/
theorem C2_witness :
    ((((mapFind [] "ed").getD []).filter fun t => (3 : Nat) - t < RATE_LIMIT_WINDOW).length <
      MAX_NOTES_PER_MINUTE) ∧
    (rateCheck [] "ed" 3).1 = true ∧
    mapFind (rateCheck [] "ed" 3).2 "ed" =
      some ((((mapFind [] "ed").getD []).filter fun t => (3 : Nat) - t < RATE_LIMIT_WINDOW) ++ [3]) :=
  ⟨by decide, (C2_rate_limiter_algorithm.2.1 [] "ed" 3).2 (by decide)⟩

/-- Counterexample to C1 as stated: a create rejected with ValidationFailed
does change the rate-limiter state — the middleware runs before validation,
so the failed attempt's timestamp is still recorded (here the empty map
gains the entry ("carol", [0])). -/
theorem C1_counterexample :
    (createNote initialStore [] "carol" 0 (some (.jstr " ")) (some (.jstr "x"))).1 =
      CreateResult.validationFailed ["Title is required and cannot be empty or just spaces"] ∧
    (createNote initialStore [] "carol" 0 (some (.jstr " ")) (some (.jstr "x"))).2.2 ≠
      ([] : JsMap) := by
  exact ⟨by decide, by decide⟩

/-- C1 amended: the note store is unchanged by every rejected request
(RateLimited or ValidationFailed create, NotFound or ValidationFailed
update; search handlers never write state at all, being pure functions of
the store), and the rate-limiter state is unchanged by a RateLimited
rejection; but a create rejected with ValidationFailed passes the rate
limiter first, which prunes and records the attempt, so the client's
timestamp record can change on that rejection. -/
theorem C1_amended_rejections_preserve_state :
    (∀ (s : Store) (m : JsMap) (c : String) (now : Nat) (t cc : Option JsonVal),
      (createNote s m c now t cc).1 = .rateLimited →
        (createNote s m c now t cc).2.1 = s ∧ (createNote s m c now t cc).2.2 = m) ∧
    (∀ (s : Store) (m : JsMap) (c : String) (now : Nat) (t cc : Option JsonVal)
      (e : List String),
      (createNote s m c now t cc).1 = .validationFailed e →
        (createNote s m c now t cc).2.1 = s) ∧
    (∀ (s : Store) (i now : Nat) (t cc : Option JsonVal),
      ((updateNote s i now t cc).1 = .notFound ∨
        (∃ e, (updateNote s i now t cc).1 = .validationFailed e)) →
        (updateNote s i now t cc).2 = s) := by
  refine ⟨?_, ?_, ?_⟩
  · intro s m c now t cc h
    by_cases hb : (rateCheck m c now).1 = true
    · exfalso
      simp only [createNote, if_pos hb] at h
      by_cases hv : (validateNoteInput t cc).isValid = true
      · rw [if_pos hv] at h
        simp at h
      · rw [if_neg hv] at h
        simp at h
    · have hb' : (rateCheck m c now).1 = false := by simpa using hb
      constructor
      · simp [createNote, hb']
      · have h2 := rateCheck_reject m c now hb'
        simp [createNote, hb', h2]
  · intro s m c now t cc e h
    by_cases hb : (rateCheck m c now).1 = true
    · by_cases hv : (validateNoteInput t cc).isValid = true
      · exfalso
        simp only [createNote, if_pos hb, if_pos hv] at h
        simp at h
      · simp [createNote, if_pos hb, if_neg hv]
    · exfalso
      simp only [createNote] at h
      rw [if_neg hb] at h
      simp at h
  · intro s i now t cc h
    cases hf : s.notes.find? (fun n => n.id == i) with
    | none => rw [updateNote_notFound_eq s i now t cc hf]
    | some existing =>
      cases ht : stageField t existing.title "Title cannot be empty or just spaces" with
      | error e => rw [updateNote_titleError_eq s i now t cc existing e hf ht]
      | ok stagedT =>
        cases hc : stageField cc existing.content "Content cannot be empty or just spaces" with
        | error e => rw [updateNote_contentError_eq s i now t cc existing stagedT e hf ht hc]
        | ok stagedC =>
          rw [updateNote_staged_eq s i now t cc existing stagedT stagedC _ hf ht hc rfl] at h ⊢
          by_cases hn : (stagedT.isNone && stagedC.isNone) = true
          · rw [if_pos hn]
          · exfalso
            rw [if_neg hn] at h
            rcases h with h | ⟨e, h⟩
            · simp at h
            · simp at h

/-- Witness for C1 amended: a rate-limited create from a client with five
timestamps inside the window leaves both the store and the rate-limiter map
exactly as they were. -/
theorem C1_witness :
    (createNote initialStore [("bob", [0, 0, 0, 0, 0])] "bob" 1
      (some (.jstr "t")) (some (.jstr "c"))).1 = CreateResult.rateLimited ∧
    ((createNote initialStore [("bob", [0, 0, 0, 0, 0])] "bob" 1
      (some (.jstr "t")) (some (.jstr "c"))).2.1 = initialStore ∧
    (createNote initialStore [("bob", [0, 0, 0, 0, 0])] "bob" 1
      (some (.jstr "t")) (some (.jstr "c"))).2.2 = [("bob", [0, 0, 0, 0, 0])]) :=
  ⟨by decide, C1_amended_rejections_preserve_state.1 initialStore
    [("bob", [0, 0, 0, 0, 0])] "bob" 1 (some (.jstr "t")) (some (.jstr "c"))
    (by decide)⟩

/-- C4: in every reachable store state, every stored note's title and
content are non-empty, not whitespace-only, and carry no leading or
trailing whitespace. Preservation by create and update — the only mutators
— is exactly what the induction over `Reachable` establishes. -/
theorem C4_stored_fields_clean (s : Store) (h : Reachable s) :
    ∀ n ∈ s.notes,
      (n.title ≠ "" ∧ jsTrim n.title = n.title ∧
        ¬ ∀ ch ∈ n.title.data, isWS ch = true) ∧
      (n.content ≠ "" ∧ jsTrim n.content = n.content ∧
        ¬ ∀ ch ∈ n.content.data, isWS ch = true) := by
  intro n hn
  obtain ⟨hT, hC⟩ := (reachable_inv s h).1 n hn
  exact ⟨⟨hT.2, hT.1, cleanField_jsTrim _ hT⟩, ⟨hC.2, hC.1, cleanField_jsTrim _ hC⟩⟩

/-- Witness for C4: the state reached by one create with padded inputs
satisfies the invariant (the stored fields are the trimmed strings). -/
theorem C4_witness :
    Reachable (createNote initialStore [] "walt" 0
      (some (.jstr " a ")) (some (.jstr "b"))).2.1 ∧
    ∀ n ∈ (createNote initialStore [] "walt" 0
      (some (.jstr " a ")) (some (.jstr "b"))).2.1.notes,
      (n.title ≠ "" ∧ jsTrim n.title = n.title ∧
        ¬ ∀ ch ∈ n.title.data, isWS ch = true) ∧
      (n.content ≠ "" ∧ jsTrim n.content = n.content ∧
        ¬ ∀ ch ∈ n.content.data, isWS ch = true) :=
  ⟨Reachable.create initialStore [] "walt" 0
      (some (.jstr " a ")) (some (.jstr "b")) Reachable.init,
    C4_stored_fields_clean _
      (Reachable.create initialStore [] "walt" 0
        (some (.jstr " a ")) (some (.jstr "b")) Reachable.init)⟩

/-- C5: ids are assigned sequentially starting at 1 — in every reachable
state the stored ids are exactly `1, …, noteIdCounter - 1` in creation
order, hence pairwise distinct and strictly increasing; and any create that
succeeds from such a state assigns `noteIdCounter`, which is strictly
greater than every stored id, so no id is ever reused. -/
theorem C5_ids_sequential (s : Store) (h : Reachable s) :
    s.notes.map Note.id = List.range' 1 (s.noteIdCounter - 1) ∧
    (s.notes.map Note.id).Pairwise (· < ·) ∧
    (∀ n ∈ s.notes, 1 ≤ n.id ∧ n.id < s.noteIdCounter) ∧
    (∀ (m : JsMap) (c : String) (now : Nat) (t cc : Option JsonVal)
      (note : Note) (s' : Store) (m' : JsMap),
      createNote s m c now t cc = (.created note, s', m') →
      note.id = s.noteIdCounter ∧ ∀ n ∈ s.notes, n.id < note.id) := by
  obtain ⟨hmap, hc1⟩ := (reachable_inv s h).2
  have hmem : ∀ n ∈ s.notes, 1 ≤ n.id ∧ n.id < s.noteIdCounter := by
    intro n hn
    have h1 : n.id ∈ List.range' 1 (s.noteIdCounter - 1) := by
      rw [← hmap]
      exact List.mem_map_of_mem Note.id hn
    have h2 := List.mem_range'_1.mp h1
    omega
  refine ⟨hmap, ?_, hmem, ?_⟩
  · rw [hmap]
    exact List.pairwise_lt_range' 1 (s.noteIdCounter - 1)
  · intro m c now t cc note s' m' heq
    rcases createNote_cases s m c now t cc with ⟨_, h1 | h1⟩ | ⟨_, _, h1⟩
    · rw [heq] at h1
      simp at h1
    · rw [heq] at h1
      simp at h1
    · have h2 := congrArg Prod.fst (h1.symm.trans heq)
      have hnote : note = ⟨s.noteIdCounter, cleanString t, cleanString cc, now, now⟩ := by
        simpa using h2.symm
      constructor
      · rw [hnote]
      · intro n hn
        rw [hnote]
        exact (hmem n hn).2

/-- Witness for C5: the initial store (counter 1, no notes) satisfies all
conjuncts. -/
theorem C5_witness :
    Reachable initialStore ∧
    (initialStore.notes.map Note.id =
      List.range' 1 (initialStore.noteIdCounter - 1) ∧
    (initialStore.notes.map Note.id).Pairwise (· < ·) ∧
    (∀ n ∈ initialStore.notes, 1 ≤ n.id ∧ n.id < initialStore.noteIdCounter) ∧
    (∀ (m : JsMap) (c : String) (now : Nat) (t cc : Option JsonVal)
      (note : Note) (s' : Store) (m' : JsMap),
      createNote initialStore m c now t cc = (.created note, s', m') →
      note.id = initialStore.noteIdCounter ∧
        ∀ n ∈ initialStore.notes, n.id < note.id)) :=
  ⟨Reachable.init, C5_ids_sequential initialStore Reachable.init⟩

/-- C7: for every successful update that changes at least one field,
`updated_fields` lists exactly the names of the fields whose trimmed
provided value differs from the stored value (title before content, in the
handler's order), every field not listed keeps its stored value,
`created_at` is unchanged, and `updated_at` is set to the current time; the
returned note is also the one written back into the store. -/
theorem C7_update_reports_changed_fields (s : Store) (i now : Nat)
    (title content : Option JsonVal) (existing : Note)
    (hf : findById s i = some existing)
    (hvT : providedValid title = true) (hvC : providedValid content = true)
    (hchange : providedChanged title existing.title = true ∨
      providedChanged content existing.content = true) :
    ∃ note,
      updateNote s i now title content =
        (.updated note
          ((if providedChanged title existing.title then ["title"] else []) ++
            (if providedChanged content existing.content then ["content"] else [])),
          { s with notes := replaceFirst s.notes i note }) ∧
      note.id = existing.id ∧
      note.title =
        (if providedChanged title existing.title then cleanString title
          else existing.title) ∧
      note.content =
        (if providedChanged content existing.content then cleanString content
          else existing.content) ∧
      note.created_at = existing.created_at ∧
      note.updated_at = now := by
  have ht := stageField_of_valid title existing.title
    "Title cannot be empty or just spaces" hvT
  have hc := stageField_of_valid content existing.content
    "Content cannot be empty or just spaces" hvC
  cases hbT : providedChanged title existing.title with
  | false =>
    cases hbC : providedChanged content existing.content with
    | false =>
      rw [hbT] at hchange
      rw [hbC] at hchange
      rcases hchange with h | h <;> cases h
    | true =>
      rw [hbT] at ht
      rw [hbC] at hc
      simp only [Bool.false_eq_true, if_false, if_true] at ht hc
      rw [updateNote_staged_eq s i now title content existing
        none (some (cleanString content)) _ hf ht hc rfl]
      refine ⟨{ existing with content := cleanString content, updated_at := now },
        ?_, rfl, rfl, rfl, rfl, rfl⟩
      simp
  | true =>
    rw [hbT] at ht
    cases hbC : providedChanged content existing.content with
    | false =>
      rw [hbC] at hc
      simp only [Bool.false_eq_true, if_false, if_true] at ht hc
      rw [updateNote_staged_eq s i now title content existing
        (some (cleanString title)) none _ hf ht hc rfl]
      refine ⟨{ existing with title := cleanString title, updated_at := now },
        ?_, rfl, rfl, rfl, rfl, rfl⟩
      simp
    | true =>
      rw [hbC] at hc
      simp only [if_true] at ht hc
      rw [updateNote_staged_eq s i now title content existing
        (some (cleanString title)) (some (cleanString content)) _ hf ht hc rfl]
      refine ⟨{ existing with title := cleanString title, content := cleanString content, updated_at := now },
        ?_, rfl, rfl, rfl, rfl, rfl⟩
      simp

/-- Witness for C7: changing the title to a genuinely different value while
re-sending the current content yields exactly `["title"]`, keeps the
content, keeps `created_at`, and bumps `updated_at`. -/
theorem C7_witness :
    findById ⟨[⟨1, "a", "b", 3, 3⟩], 2⟩ 1 = some ⟨1, "a", "b", 3, 3⟩ ∧
    providedValid (some (.jstr " c ")) = true ∧
    providedValid (some (.jstr "b")) = true ∧
    providedChanged (some (.jstr " c ")) "a" = true ∧
    providedChanged (some (.jstr "b")) "b" = false ∧
    (∃ note,
      updateNote ⟨[⟨1, "a", "b", 3, 3⟩], 2⟩ 1 9 (some (.jstr " c "))
          (some (.jstr "b")) =
        (.updated note
          ((if providedChanged (some (.jstr " c ")) (Note.title ⟨1, "a", "b", 3, 3⟩)
              then ["title"] else []) ++
            (if providedChanged (some (.jstr "b")) (Note.content ⟨1, "a", "b", 3, 3⟩)
              then ["content"] else [])),
          { (⟨[⟨1, "a", "b", 3, 3⟩], 2⟩ : Store) with
            notes := replaceFirst [⟨1, "a", "b", 3, 3⟩] 1 note }) ∧
      note.id = 1 ∧
      note.title =
        (if providedChanged (some (.jstr " c ")) (Note.title ⟨1, "a", "b", 3, 3⟩)
          then cleanString (some (.jstr " c ")) else "a") ∧
      note.content =
        (if providedChanged (some (.jstr "b")) (Note.content ⟨1, "a", "b", 3, 3⟩)
          then cleanString (some (.jstr "b")) else "b") ∧
      note.created_at = 3 ∧
      note.updated_at = 9) :=
  ⟨rfl, by decide, by decide, by decide, by decide,
    C7_update_reports_changed_fields ⟨[⟨1, "a", "b", 3, 3⟩], 2⟩ 1 9
      (some (.jstr " c ")) (some (.jstr "b")) ⟨1, "a", "b", 3, 3⟩ rfl
      (by decide) (by decide) (Or.inl (by decide))⟩

/-- C8: for every store state and every query that is non-empty after
trimming, search answers with the trimmed lower-cased query and a
permutation of exactly the stored notes whose lowered title or content
contains it as a substring, ordered by `updated_at` descending; and list
returns a permutation of all stored notes in the same order. -/
theorem C8_search_and_list_ordering (s : Store) (q : String)
    (h : jsTrim q ≠ "") :
    (∃ res,
      searchNotes s (some q) = .results (jsToLower (jsTrim q)) res ∧
      res.Perm (s.notes.filter (fun n =>
        strContains (jsToLower n.title) (jsToLower (jsTrim q)) ||
        strContains (jsToLower n.content) (jsToLower (jsTrim q)))) ∧
      res.Pairwise (fun a b => b.updated_at ≤ a.updated_at)) ∧
    (listNotes s).Perm s.notes ∧
    (listNotes s).Pairwise (fun a b => b.updated_at ≤ a.updated_at) := by
  have hq : q ≠ "" := fun e => h (by rw [e]; rfl)
  have hcq : jsToLower (jsTrim q) ≠ "" := fun e => h (jsToLower_eq_empty _ e)
  have heq : searchNotes s (some q) = .results (jsToLower (jsTrim q))
      (sortByUpdatedDesc (s.notes.filter (noteMatches (jsToLower (jsTrim q))))) := by
    simp only [searchNotes]
    rw [if_neg hq, if_neg hcq]
  refine ⟨⟨_, heq, ?_, ?_⟩, ?_, ?_⟩
  · exact List.perm_insertionSort updatedDescRel _
  · exact List.sorted_insertionSort updatedDescRel _
  · exact List.perm_insertionSort updatedDescRel _
  · exact List.sorted_insertionSort updatedDescRel _

/-- Witness for C8: searching `" A "` over a two-note store matches both
notes case-insensitively (one in the title, one in the content). -/
theorem C8_witness :
    jsTrim " A " ≠ "" ∧
    ((∃ res,
      searchNotes ⟨[⟨1, "Xa", "b", 0, 0⟩, ⟨2, "c", "dA", 0, 5⟩], 3⟩ (some " A ") =
        .results (jsToLower (jsTrim " A ")) res ∧
      res.Perm ((⟨[⟨1, "Xa", "b", 0, 0⟩, ⟨2, "c", "dA", 0, 5⟩], 3⟩ : Store).notes.filter
        (fun n =>
          strContains (jsToLower n.title) (jsToLower (jsTrim " A ")) ||
          strContains (jsToLower n.content) (jsToLower (jsTrim " A ")))) ∧
      res.Pairwise (fun a b => b.updated_at ≤ a.updated_at)) ∧
    (listNotes ⟨[⟨1, "Xa", "b", 0, 0⟩, ⟨2, "c", "dA", 0, 5⟩], 3⟩).Perm
      (⟨[⟨1, "Xa", "b", 0, 0⟩, ⟨2, "c", "dA", 0, 5⟩], 3⟩ : Store).notes ∧
    (listNotes ⟨[⟨1, "Xa", "b", 0, 0⟩, ⟨2, "c", "dA", 0, 5⟩], 3⟩).Pairwise
      (fun a b => b.updated_at ≤ a.updated_at)) :=
  ⟨by decide,
    C8_search_and_list_ordering ⟨[⟨1, "Xa", "b", 0, 0⟩, ⟨2, "c", "dA", 0, 5⟩], 3⟩
      " A " (by decide)⟩

/-- Counterexample to C10 as stated: a create whose title is the non-string
`42`, sent by a client already at the threshold, is rejected with
RateLimited, not ValidationFailed — the rate limiter runs before
validation. -/
theorem C10_counterexample :
    (createNote initialStore [("eve", [0, 0, 0, 0, 0])] "eve" 1 (some (.jnum 42))
      (some (.jstr "x"))).1 = CreateResult.rateLimited ∧
    ∀ e, (createNote initialStore [("eve", [0, 0, 0, 0, 0])] "eve" 1 (some (.jnum 42))
      (some (.jstr "x"))).1 ≠ CreateResult.validationFailed e := by
  have h : (createNote initialStore [("eve", [0, 0, 0, 0, 0])] "eve" 1
      (some (.jnum 42)) (some (.jstr "x"))).1 = CreateResult.rateLimited := by decide
  refine ⟨h, fun e he => ?_⟩
  rw [h] at he
  cases he

/-- C10 amended: for every create request that passes the rate limiter, and
for every update request on an existing note, in which a provided title or
content is not a string, the request is rejected with ValidationFailed (a
non-empty error list) — non-string values are treated the same as blank
strings, and the store is left unchanged, so they are never stored. -/
theorem C10_amended_non_string_rejected :
    (∀ (s : Store) (m : JsMap) (c : String) (now : Nat)
      (title content : Option JsonVal) (v : JsonVal),
      (rateCheck m c now).1 = true →
      (title = some v ∨ content = some v) → isJStr v = false →
      ∃ e, createNote s m c now title content =
        (.validationFailed e, s, (rateCheck m c now).2) ∧ e ≠ []) ∧
    (∀ (s : Store) (i now : Nat) (title content : Option JsonVal)
      (existing : Note) (v : JsonVal),
      findById s i = some existing →
      (title = some v ∨ content = some v) → isJStr v = false →
      ∃ e, updateNote s i now title content = (.validationFailed e, s) ∧ e ≠ []) := by
  constructor
  · intro s m c now title content v hrl hprov hstr
    have hblank : cleanString (some v) = "" := cleanString_of_not_jstr v hstr
    have hinv : ¬ (validateNoteInput title content).isValid = true := by
      intro hv
      obtain ⟨h1, h2⟩ := (validateNoteInput_isValid title content).mp hv
      rcases hprov with rfl | rfl
      · exact h1 hblank
      · exact h2 hblank
    refine ⟨(validateNoteInput title content).errors, ?_, ?_⟩
    · simp only [createNote]
      rw [if_pos hrl, if_neg hinv]
    · intro he
      exact hinv (by simp [Validation.isValid, he])
  · intro s i now title content existing v hfind hprov hstr
    have hblank : cleanString (some v) = "" := cleanString_of_not_jstr v hstr
    rcases hprov with rfl | rfl
    · refine ⟨["Title cannot be empty or just spaces"], ?_, by simp⟩
      exact updateNote_titleError_eq s i now (some v) content existing _ hfind
        (stageField_blank v existing.title _ hblank)
    · cases ht : stageField title existing.title "Title cannot be empty or just spaces" with
      | error e =>
        refine ⟨e, updateNote_titleError_eq s i now title (some v) existing e hfind ht, ?_⟩
        rw [stageField_error title existing.title _ e ht]
        simp
      | ok stagedT =>
        refine ⟨["Content cannot be empty or just spaces"], ?_, by simp⟩
        exact updateNote_contentError_eq s i now title (some v) existing stagedT _ hfind ht
          (stageField_blank v existing.content _ hblank)

/-- Witness for C10 amended: a numeric title on create (client not rate
limited) and a boolean content on update of an existing note are both
rejected with a validation error. -/
theorem C10_witness :
    (rateCheck [] "frank" 0).1 = true ∧ isJStr (.jnum 7) = false ∧
    isJStr (.jbool true) = false ∧
    findById ⟨[⟨1, "a", "b", 0, 0⟩], 2⟩ 1 = some ⟨1, "a", "b", 0, 0⟩ ∧
    (∃ e, createNote initialStore [] "frank" 0 (some (.jnum 7)) (some (.jstr "x")) =
      (.validationFailed e, initialStore, (rateCheck [] "frank" 0).2) ∧ e ≠ []) ∧
    (∃ e, updateNote ⟨[⟨1, "a", "b", 0, 0⟩], 2⟩ 1 9 none (some (.jbool true)) =
      (.validationFailed e, ⟨[⟨1, "a", "b", 0, 0⟩], 2⟩) ∧ e ≠ []) :=
  ⟨by decide, rfl, rfl, rfl,
    C10_amended_non_string_rejected.1 initialStore [] "frank" 0
      (some (.jnum 7)) (some (.jstr "x")) (.jnum 7) (by decide) (Or.inl rfl) rfl,
    C10_amended_non_string_rejected.2 ⟨[⟨1, "a", "b", 0, 0⟩], 2⟩ 1 9
      none (some (.jbool true)) ⟨1, "a", "b", 0, 0⟩ (.jbool true) rfl
      (Or.inr rfl) rfl⟩

end NotesApi
